import Mathlib

/-!
# Verification of the evollm-dashboard ingestion core

A shallow embedding, in Lean 4, of the parts of the evollm-dashboard backend
that its specification makes claims about: the two store readers
(`backend/adapters/openevolve_adapter.py` and
`backend/adapters/shinka_adapter.py`), the format registry
(`backend/adapters/registry.py`) and the change-detection engine
(`backend/services/change_detection.py`).

Python floats are modelled by `Rat` plus explicit non-finite markers
(`JNum.nan`, `JNum.inf`, `JNum.ninf`); JSON values by `JVal`; the SQLite
store by in-memory lists of rows, with `Except` capturing operations that
can raise; filesystem state (checkpoints, mtimes, glob results) by explicit
snapshot structures passed as arguments.  Every definition is executable.
-/

namespace EvoDash

/-- A numeric value as it appears in a parsed JSON document or a SQLite REAL
column: either a finite number (a Python float modelled as a rational) or one
of the IEEE non-finite values. -/
inductive JNum where
  | fin : Rat → JNum
  | nan : JNum
  | inf : JNum
  | ninf : JNum
deriving DecidableEq, Repr

/-- A JSON value, restricted to the shapes the metric dictionaries can hold. -/
inductive JVal where
  | num : JNum → JVal
  | boolean : Bool → JVal
  | str : String → JVal
  | null : JVal
deriving DecidableEq, Repr

/-- `_safe_json_float(v)` (openevolve_adapter.py lines 32-40): true exactly for
a non-bool number that is neither NaN nor infinite. -/
def safeJsonFloat : JVal → Bool
  | .num (.fin _) => true
  | _ => false

/-- The finite numeric content of a JSON value, if any. -/
def finVal : JVal → Option Rat
  | .num (.fin q) => some q
  | _ => none

/-- `_safe_sum_metrics(metrics)` (openevolve_adapter.py lines 43-45): the sum
of the finite metric values; `sum([])` and the explicit empty-list fallback
both give 0. -/
def safeSumMetrics (m : List (String × JVal)) : Rat :=
  ((m.map Prod.snd).filterMap finVal).sum

/-- `_sanitize_metrics(metrics)` (openevolve_adapter.py lines 48-49): a value
that is not a finite number is replaced by `None` (JSON null). -/
def sanitizeMetrics (m : List (String × JVal)) : List (String × JVal) :=
  m.map fun kv => (kv.1, if safeJsonFloat kv.2 then kv.2 else JVal.null)

/-- `_clean_nan(v)` (shinka_adapter.py lines 37-40) on a nullable REAL column
value: NaN and the infinities become `None`; everything else passes through. -/
def cleanNan : Option JNum → Option JNum
  | some .nan => none
  | some .inf => none
  | some .ninf => none
  | v => v

/-- The Python idiom `x or 0.0` applied to a cleaned nullable float: `None`
falls back to 0.0, a zero value is replaced by the (equal) literal 0.0, and
any other finite value passes through. -/
def orZero : Option JNum → Rat
  | some (.fin q) => q
  | _ => 0

/-- Lookup in a parsed JSON object represented as an association list. -/
def dictFind (m : List (String × JVal)) (k : String) : Option JVal :=
  (m.find? fun kv => kv.1 == k).map Prod.snd

/-- Python's `{**a, **b}`: the keys of `a` in order with values overridden by
`b` where present, followed by the keys of `b` not present in `a`. -/
def dictMerge (a b : List (String × JVal)) : List (String × JVal) :=
  (a.map fun kv => (kv.1, (dictFind b kv.1).getD kv.2))
    ++ b.filter fun kv => (dictFind a kv.1).isNone

/-- The fields of `UnifiedProgram` (backend/models/unified.py) that the
specification's claims are about. -/
structure UnifiedProgram where
  id : String
  code : String
  parentId : Option String
  generation : Int
  islandId : Option Int
  timestamp : Rat
  score : Rat
  metrics : List (String × JVal)
  correct : Bool
  complexity : Rat
  codeDiff : Option String
  childrenCount : Int
  inArchive : Bool
deriving DecidableEq, Repr

/-- `ExperimentStatus` (backend/models/unified.py). -/
inductive ExperimentStatus where
  | running | paused | completed | unknown
deriving DecidableEq, Repr

/-- `STATUS_RUNNING_THRESHOLD` (backend/config.py line 17). -/
def STATUS_RUNNING_THRESHOLD : Rat := 60

/-- `STATUS_PAUSED_THRESHOLD` (backend/config.py line 18). -/
def STATUS_PAUSED_THRESHOLD : Rat := 600

/-- `_infer_status` (both adapters): unknown when the store was never
modified, else by the age of the last modification. -/
def inferStatus (lastMod now : Rat) : ExperimentStatus :=
  if lastMod = 0 then .unknown
  else if now - lastMod < STATUS_RUNNING_THRESHOLD then .running
  else if now - lastMod < STATUS_PAUSED_THRESHOLD then .paused
  else .completed

/-- The fields of `UnifiedExperiment` (backend/models/unified.py) that the
claims are about. -/
structure UnifiedExperiment where
  status : ExperimentStatus
  lastModified : Rat
  totalPrograms : Nat
  bestScore : Rat
  currentGeneration : Int
  numIslands : Nat
  lastIteration : Int
deriving DecidableEq, Repr

/-- The fields of `MetricsSummary` (backend/models/unified.py) that the claims
are about.  `bestScoreHistory` lists `(generation, value)` pairs, mirroring
the `TimeSeriesPoint` records. -/
structure MetricsSummary where
  totalPrograms : Nat
  bestScore : Rat
  improvementRate : Rat
  bestScoreHistory : List (Int × Rat)
deriving DecidableEq, Repr

/-- `MetricsSummary()` with all defaults. -/
def defaultMetricsSummary : MetricsSummary :=
  { totalPrograms := 0, bestScore := 0, improvementRate := 0, bestScoreHistory := [] }

/-- The filter arguments shared by both readers' `get_programs`. -/
structure ProgramFilters where
  islandId : Option Int
  generationMin : Option Int
  generationMax : Option Int
  scoreMin : Option Rat
  archiveOnly : Bool
  correctOnly : Bool
deriving DecidableEq, Repr

/-- The no-filter default arguments. -/
def noFilters : ProgramFilters :=
  { islandId := none, generationMin := none, generationMax := none,
    scoreMin := none, archiveOnly := false, correctOnly := false }

/-- `filtered[start:end]` with `start = (page - 1) * page_size` and
`end = start + page_size`, for `page ≥ 1` (the request layer validates
`page ≥ 1` via `Query(1, ge=1)` in backend/api/programs.py). -/
def paginate (page pageSize : Nat) (l : List α) : List α :=
  (l.drop ((page - 1) * pageSize)).take pageSize

/-! ## Shared aggregation: best-score history

Both `OpenEvolveAdapter.get_metrics` (openevolve_adapter.py lines 456-472)
and `ShinkaAdapter.get_metrics` (shinka_adapter.py lines 359-382) build the
best-score history with the same code: a `gen_best` dict accumulated with
`gen_best[g] = max(gen_best.get(g, 0), s)`, iterated in ascending key order,
then rewritten in place into a running maximum started at `running_max = 0.0`.
-/

/-- The final value of `gen_best[g]` after the accumulation loop: the maximum
of the scores recorded at generation `g`, clamped below by the dict-miss
default `0`. -/
def genBest (pairs : List (Int × Rat)) (g : Int) : Rat :=
  ((pairs.filter fun pr => pr.1 == g).map Prod.snd).foldl max 0

/-- `sorted(gen_best.items())` key order: the distinct generations present,
ascending. -/
def sortedGens (pairs : List (Int × Rat)) : List Int :=
  List.insertionSort (fun a b => a ≤ b) (pairs.map Prod.fst).dedup

/-- The in-place running-maximum rewrite of the history values. -/
def runningMax : Rat → List (Int × Rat) → List (Int × Rat)
  | _, [] => []
  | acc, (g, v) :: t =>
      let m := max acc v
      (g, m) :: runningMax m t

/-- The `best_score_history` both adapters return, from the flat list of
`(generation, score)` pairs of the loaded records. -/
def bestHistory (pairs : List (Int × Rat)) : List (Int × Rat) :=
  runningMax 0 ((sortedGens pairs).map fun g => (g, genBest pairs g))

/-! ## Checkpoint reader (`OpenEvolveAdapter`)

The model starts from the loaded cache state (`_ensure_cache` /
`_load_checkpoint`): the per-program JSON records with the island index
already cross-referenced from the metadata's `islands` lists, plus the
metadata fields and the parsed trace log.  A missing experiment path, or a
path without any `checkpoint_*` directory, is the `none` disk state: the
loader then sets every cache to its empty value.
-/

/-- One cached program record of a checkpoint (a parsed `programs/*.json`
file), with `island` holding the `metadata["island"]` annotation assigned by
`_load_checkpoint`. -/
structure OEProg where
  id : String
  code : String
  parentId : Option String
  generation : Int
  timestamp : Rat
  metrics : List (String × JVal)
  complexity : Rat
  island : Option Int
deriving DecidableEq, Repr

/-- One parsed line of `evolution_trace.jsonl`. -/
structure OETrace where
  childId : String
  parentId : String
  childMetrics : List (String × JVal)
  parentMetrics : List (String × JVal)
  codeDiff : Option String
deriving DecidableEq, Repr

/-- The loaded checkpoint cache: programs in dict (insertion) order, the
metadata fields the claims touch, the trace log, and the mtime of the
checkpoint's `metadata.json` (0 when that file is absent). -/
structure OESnapshot where
  programs : List OEProg
  archive : List String
  bestProgramId : Option String
  islands : List (List String)
  lastIteration : Int
  traces : List OETrace
  metaMtime : Rat
deriving DecidableEq, Repr

/-- The cache `_ensure_cache` leaves behind when `_find_latest_checkpoint`
returns `None`: empty metadata, no programs, no traces. -/
def emptySnapshot : OESnapshot :=
  { programs := [], archive := [], bestProgramId := none, islands := [],
    lastIteration := 0, traces := [], metaMtime := 0 }

/-- `none` models an experiment path with no checkpoint on disk (including a
path that does not exist at all). -/
def oeCache (disk : Option OESnapshot) : OESnapshot := disk.getD emptySnapshot

/-- `get_last_modified` (openevolve_adapter.py lines 628-634): the metadata
mtime of the latest checkpoint, 0 when there is none. -/
def oeLastModified (disk : Option OESnapshot) : Rat := (oeCache disk).metaMtime

/-- `_prog_to_unified` (openevolve_adapter.py lines 164-218): score is the
sum of the finite metric values, the metrics map is sanitized, correctness is
hardwired to `True`, `children_count` is left 0 and `code_diff` absent. -/
def oeProgToUnified (archive : List String) (p : OEProg) : UnifiedProgram :=
  { id := p.id
    code := p.code
    parentId := p.parentId
    generation := p.generation
    islandId := p.island
    timestamp := p.timestamp
    score := safeSumMetrics p.metrics
    metrics := sanitizeMetrics p.metrics
    correct := true
    complexity := p.complexity
    codeDiff := none
    childrenCount := 0
    inArchive := decide (p.id ∈ archive) }

/-- The `parent_counts` accumulation plus lookup of `get_programs`
(openevolve_adapter.py lines 271-276): a program is counted as a child only
when its `parent_id` is truthy (present and non-empty). -/
def oeChildrenCount (all : List UnifiedProgram) (pid : String) : Int :=
  (all.countP fun q => match q.parentId with
    | some s => !(s == "") && s == pid
    | none => false : Nat)

/-- Second pass of `get_programs`: overwrite every converted program's
`children_count` from the freshly accumulated counts. -/
def oeWithChildrenCounts (all : List UnifiedProgram) : List UnifiedProgram :=
  all.map fun p => { p with childrenCount := oeChildrenCount all p.id }

/-- The filter block of `OpenEvolveAdapter.get_programs` (lines 278-289),
applied in source order.  `correct_only` is accepted by the signature but
never applied. -/
def oeApplyFilters (f : ProgramFilters) (l : List UnifiedProgram) :
    List UnifiedProgram :=
  let l1 := match f.islandId with
    | some i => l.filter fun p => p.islandId == some i
    | none => l
  let l2 := match f.generationMin with
    | some m => l1.filter fun p => decide (m ≤ p.generation)
    | none => l1
  let l3 := match f.generationMax with
    | some m => l2.filter fun p => decide (p.generation ≤ m)
    | none => l2
  let l4 := match f.scoreMin with
    | some m => l3.filter fun p => decide (m ≤ p.score)
    | none => l3
  if f.archiveOnly then l4.filter (·.inArchive) else l4

/-- `sort_key_map` of `OpenEvolveAdapter.get_programs` (lines 292-300), with
unrecognized keys falling back to the generation. -/
def oeSortKey : String → UnifiedProgram → Rat
  | "generation", p => p.generation
  | "score", p => p.score
  | "timestamp", p => p.timestamp
  | "complexity", p => p.complexity
  | "island_id", p => (p.islandId.getD 0 : Int)
  | "children_count", p => p.childrenCount
  | _, p => p.generation

/-- `filtered.sort(key=key_fn, reverse=sort_desc)`: a stable sort by the key,
descending when `sort_desc`. -/
def pySortByKey (key : UnifiedProgram → Rat) (desc : Bool)
    (l : List UnifiedProgram) : List UnifiedProgram :=
  if desc then List.insertionSort (fun a b => key b ≤ key a) l
  else List.insertionSort (fun a b => key a ≤ key b) l

/-- The `all_progs` list of `OpenEvolveAdapter.get_programs` (lines
262-276): every cached program converted, with children counts recomputed
from the parent-pointer graph. -/
def oeAllPrograms (disk : Option OESnapshot) : List UnifiedProgram :=
  oeWithChildrenCounts
    ((oeCache disk).programs.map (oeProgToUnified (oeCache disk).archive))

/-- The conjunction of all of `get_programs`' filters as a predicate on a
returned entity, including the `correct_only` filter the claims quantify
over (matching each filter's code: absent filters hold trivially). -/
def oeSatisfies (f : ProgramFilters) (p : UnifiedProgram) : Bool :=
  (match f.islandId with
    | some i => p.islandId == some i
    | none => true) &&
  (match f.generationMin with
    | some m => decide (m ≤ p.generation)
    | none => true) &&
  (match f.generationMax with
    | some m => decide (p.generation ≤ m)
    | none => true) &&
  (match f.scoreMin with
    | some m => decide (m ≤ p.score)
    | none => true) &&
  (!f.archiveOnly || p.inArchive) &&
  (!f.correctOnly || p.correct)

/-- `OpenEvolveAdapter.get_programs` (lines 249-306): convert every cached
program, recompute children counts, filter, sort, and return one page plus
the post-filter total. -/
def oeGetPrograms (disk : Option OESnapshot) (page pageSize : Nat)
    (sortBy : String) (sortDesc : Bool) (f : ProgramFilters) :
    List UnifiedProgram × Nat :=
  let filtered := oeApplyFilters f (oeAllPrograms disk)
  let sorted := pySortByKey (oeSortKey sortBy) sortDesc filtered
  (paginate page pageSize sorted, sorted.length)

/-- `OpenEvolveAdapter.get_program` (lines 308-326): dict lookup, conversion,
then the code diff of the first trace whose `child_id` matches. -/
def oeGetProgram (disk : Option OESnapshot) (pid : String) :
    Option UnifiedProgram :=
  let snap := oeCache disk
  match snap.programs.find? fun p => p.id == pid with
  | none => none
  | some prog =>
      let u := oeProgToUnified snap.archive prog
      match snap.traces.find? fun t => t.childId == pid with
      | some t => some { u with codeDiff := t.codeDiff }
      | none => some u

/-- `OpenEvolveAdapter.get_experiment_info` (lines 222-247). -/
def oeGetExperimentInfo (disk : Option OESnapshot) (now : Rat) :
    UnifiedExperiment :=
  let snap := oeCache disk
  let best : Rat := match snap.bestProgramId with
    | some bid =>
        if bid = "" then 0
        else match snap.programs.find? fun p => p.id == bid with
          | some p => safeSumMetrics p.metrics
          | none => 0
    | none => 0
  { status := inferStatus (oeLastModified disk) now
    lastModified := oeLastModified disk
    totalPrograms := snap.programs.length
    bestScore := best
    currentGeneration := ((snap.programs.map (·.generation)).max?).getD 0
    numIslands := snap.islands.length
    lastIteration := snap.lastIteration }

/-- `OpenEvolveAdapter.get_metrics` (lines 434-529), restricted to the fields
the claims are about: empty cache short-circuits to the defaults; the
best-score history is the shared running-maximum construction; the
improvement rate counts trace events whose child metric sum strictly exceeds
the parent metric sum, over all trace events. -/
def oeGetMetrics (disk : Option OESnapshot) : MetricsSummary :=
  let snap := oeCache disk
  if snap.programs.isEmpty then defaultMetricsSummary
  else
    let scores := snap.programs.map fun p => safeSumMetrics p.metrics
    let pairs := snap.programs.map fun p =>
      (p.generation, safeSumMetrics p.metrics)
    let improvements := snap.traces.countP fun t =>
      decide (safeSumMetrics t.parentMetrics < safeSumMetrics t.childMetrics)
    { totalPrograms := snap.programs.length
      bestScore := (scores.max?).getD 0
      improvementRate :=
        if snap.traces.length = 0 then 0
        else (improvements : Rat) / (snap.traces.length : Rat)
      bestScoreHistory := bestHistory pairs }

/-! ## Relational reader (`ShinkaAdapter`)

The SQLite store is modelled as an in-memory table of rows (with the JSON
columns already parsed, mirroring `_json_loads_safe`), plus the optional
`archive` and `metadata_store` tables.  `none` at the database level models a
file that cannot be opened: `sqlite3.connect("file:...?mode=ro", uri=True)`
raises `sqlite3.OperationalError` for a missing path, which the `_db_retry`
decorator retries five times and then re-raises.  `Except DBError` captures
that raised error.
-/

/-- One row of the `programs` table.  `combinedScore` and `complexity` are
nullable REAL columns (SQLite can store infinities; NaN is stored as NULL);
the metric dictionaries are the parsed JSON text columns. -/
structure ShinkaRow where
  id : String
  code : String
  parentId : Option String
  generation : Int
  islandIdx : Option Int
  timestamp : Rat
  combinedScore : Option JNum
  publicMetrics : List (String × JVal)
  privateMetrics : List (String × JVal)
  correct : Bool
  complexity : Option JNum
  codeDiff : Option String
  childrenCount : Int
deriving DecidableEq, Repr

/-- The readable content of a ShinkaEvolve database.  `archive = none` models
a missing `archive` table (`_get_archive_set` catches the error and returns
the empty set); likewise for `metadata_store`.  `fileMtime` is the mtime of
the database file. -/
structure ShinkaDBContent where
  programs : List ShinkaRow
  archive : Option (List String)
  metadataStore : Option (List (String × Int))
  fileMtime : Rat
deriving Repr

/-- `none` models a database file that cannot be opened (missing path). -/
abbrev ShinkaDB := Option ShinkaDBContent

/-- The storage-engine error surfaced after `_db_retry` exhausts its five
attempts. -/
inductive DBError where
  | unableToOpen
deriving DecidableEq, Repr

/-- `_db_retry` (shinka_adapter.py lines 52-71): up to `n` attempts; a
success returns immediately, the last failure is re-raised. -/
def dbRetryAux (n : Nat) (f : Unit → Except DBError α) : Except DBError α :=
  match n with
  | 0 => f ()
  | n + 1 =>
      match f () with
      | .ok a => .ok a
      | .error e => if n = 0 then .error e else dbRetryAux n f

/-- `_db_retry` with its fixed `max_retries = 5`. -/
def dbRetry (f : Unit → Except DBError α) : Except DBError α := dbRetryAux 5 f

/-- `_get_archive_set` (shinka_adapter.py lines 731-736): the `program_id`
column of the `archive` table, or the empty set when the table is missing. -/
def shinkaArchiveSet (c : ShinkaDBContent) : List String := c.archive.getD []

/-- `_row_to_unified` (shinka_adapter.py lines 107-145): the combined-score
column cleaned of non-finite values then defaulted to 0.0; the two metric
JSON dicts merged as `{**public, **private}` and passed through without any
sanitization; `children_count` taken from the stored column; `in_archive`
initialized to `False` (set by the caller). -/
def shinkaRowToUnified (row : ShinkaRow) : UnifiedProgram :=
  { id := row.id
    code := row.code
    parentId := row.parentId
    generation := row.generation
    islandId := row.islandIdx
    timestamp := row.timestamp
    score := orZero (cleanNan row.combinedScore)
    metrics := dictMerge row.publicMetrics row.privateMetrics
    correct := row.correct
    complexity := orZero (cleanNan row.complexity)
    codeDiff := row.codeDiff
    childrenCount := row.childrenCount
    inArchive := false }

/-- SQLite `x >= q` on a REAL value (NULL handled by the caller). -/
def jnumGe (a : JNum) (q : Rat) : Bool :=
  match a with
  | .fin x => q ≤ x
  | .inf => true
  | .ninf => false
  | .nan => false

/-- The WHERE clause assembled by `ShinkaAdapter.get_programs`
(lines 201-219): island equality, generation bounds, combined-score lower
bound (NULL compares false), and `correct = 1`. -/
def shinkaWhere (f : ProgramFilters) (r : ShinkaRow) : Bool :=
  (match f.islandId with
    | some i => r.islandIdx == some i
    | none => true) &&
  (match f.generationMin with
    | some m => decide (m ≤ r.generation)
    | none => true) &&
  (match f.generationMax with
    | some m => decide (r.generation ≤ m)
    | none => true) &&
  (match f.scoreMin with
    | some m => match r.combinedScore with
        | some a => jnumGe a m
        | none => false
    | none => true) &&
  (!f.correctOnly || r.correct)

/-- SQLite's ordering on REAL column values: NULL sorts before -Inf, -Inf
before every finite value, +Inf after.  (NaN cannot be stored; the `nan`
case is given an arbitrary total order.) -/
def jnumLe : JNum → JNum → Bool
  | .nan, _ => true
  | _, .nan => false
  | .ninf, _ => true
  | _, .ninf => false
  | _, .inf => true
  | .inf, _ => false
  | .fin a, .fin b => a ≤ b

/-- Ordering on a nullable column value: NULLs first. -/
def sqlLe : Option JNum → Option JNum → Bool
  | none, _ => true
  | some _, none => false
  | some a, some b => jnumLe a b

/-- `sort_col_map` of `ShinkaAdapter.get_programs` (lines 222-230): the
sorted column's value per row, with unrecognized keys falling back to the
generation. -/
def shinkaSortKey : String → ShinkaRow → Option JNum
  | "generation", r => some (.fin r.generation)
  | "score", r => r.combinedScore
  | "timestamp", r => some (.fin r.timestamp)
  | "complexity", r => r.complexity
  | "island_id", r => r.islandIdx.map fun i => .fin i
  | "children_count", r => some (.fin r.childrenCount)
  | _, r => some (.fin r.generation)

/-- The `SELECT * ... WHERE ... ORDER BY ... ` result before LIMIT/OFFSET:
the rows satisfying the WHERE clause, sorted by the requested column in the
requested direction. -/
def shinkaSortedRows (c : ShinkaDBContent) (sortBy : String) (sortDesc : Bool)
    (f : ProgramFilters) : List ShinkaRow :=
  let filtered := c.programs.filter (shinkaWhere f)
  let key := shinkaSortKey sortBy
  if sortDesc then
    List.insertionSort (fun a b => sqlLe (key b) (key a) = true) filtered
  else
    List.insertionSort (fun a b => sqlLe (key a) (key b) = true) filtered

/-- The per-row body of `get_programs`' result loop (shinka_adapter.py lines
247-253): convert, set the archive flag (the converted program's id is the
row's id), and drop the row when `archive_only` is set but the program is
not archived. -/
def shinkaPageEntry (c : ShinkaDBContent) (f : ProgramFilters)
    (r : ShinkaRow) : Option UnifiedProgram :=
  let p := { shinkaRowToUnified r with
    inArchive := decide (r.id ∈ shinkaArchiveSet c) }
  if f.archiveOnly && !(decide (r.id ∈ shinkaArchiveSet c)) then none
  else some p

/-- `ShinkaAdapter.get_programs` (lines 187-255): the WHERE filters are part
of both the COUNT statement and the page query, the page is cut by
LIMIT/OFFSET in the database, and only then is the archive flag resolved —
with `archive_only` dropping non-archive rows from the already-fetched
page, after the total was computed. -/
def shinkaGetProgramsOnce (db : ShinkaDB) (page pageSize : Nat)
    (sortBy : String) (sortDesc : Bool) (f : ProgramFilters) :
    Except DBError (List UnifiedProgram × Nat) :=
  match db with
  | none => .error .unableToOpen
  | some c =>
      .ok ((paginate page pageSize
        (shinkaSortedRows c sortBy sortDesc f)).filterMap (shinkaPageEntry c f),
        (c.programs.filter (shinkaWhere f)).length)

/-- `get_programs` behind its `@_db_retry` decorator. -/
def shinkaGetPrograms (db : ShinkaDB) (page pageSize : Nat) (sortBy : String)
    (sortDesc : Bool) (f : ProgramFilters) :
    Except DBError (List UnifiedProgram × Nat) :=
  dbRetry fun _ => shinkaGetProgramsOnce db page pageSize sortBy sortDesc f

/-- `ShinkaAdapter.get_program` (lines 257-265). -/
def shinkaGetProgramOnce (db : ShinkaDB) (pid : String) :
    Except DBError (Option UnifiedProgram) :=
  match db with
  | none => .error .unableToOpen
  | some c =>
      match c.programs.find? fun r => r.id == pid with
      | none => .ok none
      | some row =>
          let archive := shinkaArchiveSet c
          let p := shinkaRowToUnified row
          .ok (some { p with inArchive := decide (p.id ∈ archive) })

/-- `get_program` behind its `@_db_retry` decorator. -/
def shinkaGetProgram (db : ShinkaDB) (pid : String) :
    Except DBError (Option UnifiedProgram) :=
  dbRetry fun _ => shinkaGetProgramOnce db pid

/-- SQL `MAX` over the non-NULL values of a nullable REAL column: NULL when
no value exists. -/
def sqlMax (vals : List JNum) : Option JNum :=
  vals.foldl (fun acc v =>
    match acc with
    | none => some v
    | some a => some (if jnumLe a v then v else a)) none

/-- `ShinkaAdapter.get_experiment_info` (lines 149-185): four aggregate
queries plus the guarded `metadata_store` lookup (a missing table or an
unparsable value is caught and leaves `last_iteration = 0`). -/
def shinkaGetExperimentInfoOnce (db : ShinkaDB) (now : Rat) :
    Except DBError UnifiedExperiment :=
  match db with
  | none => .error .unableToOpen
  | some c =>
      let best := sqlMax (c.programs.filterMap (·.combinedScore))
      let lastIter := match c.metadataStore with
        | none => 0
        | some kvs =>
            match kvs.find? fun kv => kv.1 == "last_iteration" with
            | some kv => kv.2
            | none => 0
      .ok { status := inferStatus c.fileMtime now
            lastModified := c.fileMtime
            totalPrograms := c.programs.length
            bestScore := orZero (cleanNan best)
            currentGeneration := ((c.programs.map (·.generation)).max?).getD 0
            numIslands := ((c.programs.filterMap (·.islandIdx)).dedup).length
            lastIteration := lastIter }

/-- `get_experiment_info` behind its `@_db_retry` decorator. -/
def shinkaGetExperimentInfo (db : ShinkaDB) (now : Rat) :
    Except DBError UnifiedExperiment :=
  dbRetry fun _ => shinkaGetExperimentInfoOnce db now

/-- The combined score as `get_metrics` reads it from a row:
`_clean_nan(r["combined_score"]) or 0.0`. -/
def shinkaScore (r : ShinkaRow) : Rat := orZero (cleanNan r.combinedScore)

/-- `ShinkaAdapter.get_metrics` (lines 343-413), restricted to the fields the
claims are about.  The best-score history is the shared running-maximum
construction; the improvement rate is the fraction of *rows* whose cleaned
score is positive and whose correctness flag is set — not a fraction of
derivation events. -/
def shinkaGetMetricsOnce (db : ShinkaDB) : Except DBError MetricsSummary :=
  match db with
  | none => .error .unableToOpen
  | some c =>
      if c.programs.isEmpty then .ok defaultMetricsSummary
      else
        let scores := c.programs.map shinkaScore
        let pairs := c.programs.map fun r => (r.generation, shinkaScore r)
        let improvements := c.programs.countP fun r =>
          decide (0 < shinkaScore r) && r.correct
        .ok { totalPrograms := c.programs.length
              bestScore := (scores.max?).getD 0
              improvementRate := (improvements : Rat) / (c.programs.length : Rat)
              bestScoreHistory := bestHistory pairs }

/-- `get_metrics` behind its `@_db_retry` decorator. -/
def shinkaGetMetrics (db : ShinkaDB) : Except DBError MetricsSummary :=
  dbRetry fun _ => shinkaGetMetricsOnce db

/-! ## Change-detection engine (`backend/services/change_detection.py`)

The poll loop and the debounce are modelled as explicit state transitions:
the poll loop's state per experiment is the `_last_mtimes` entry (default 0),
the debounce state is the `_debounce_timers` dict.  A missing store file is
observed as mtime 0 (`os.path.getmtime(path) if os.path.exists(path) else
0`).
-/

/-- `SQLITE_POLL_INTERVAL` (backend/config.py line 25). -/
def SQLITE_POLL_INTERVAL : Rat := 2

/-- `FS_DEBOUNCE` (backend/config.py line 28). -/
def FS_DEBOUNCE : Rat := 1

/-- One iteration of `_poll_loop` (change_detection.py lines 87-109) for one
experiment: given the recorded baseline `prev` (0 when the experiment was
never observed with a positive mtime) and the currently observed mtime,
return the new baseline and whether a change event is fired — only when the
mtime strictly grew AND `prev > 0` (the `skip first detection` guard). -/
def pollStep (prev mtime : Rat) : Rat × Bool :=
  if prev < mtime then (mtime, decide (0 < prev)) else (prev, false)

/-- A sequence of successive polls from a given baseline: the final baseline
and, per poll, whether an event fired. -/
def pollRun (prev : Rat) : List Rat → Rat × List Bool
  | [] => (prev, [])
  | m :: ms =>
      let st := pollStep prev m
      let rest := pollRun st.1 ms
      (rest.1, st.2 :: rest.2)

/-- The recorded baseline right before the `i`-th observation of a fresh
watcher (whose `_last_mtimes` starts at the dict default 0). -/
def baselineBefore (ms : List Rat) (i : Nat) : Rat := (pollRun 0 (ms.take i)).1

/-- Whether the `i`-th observation of a fresh watcher fires an event. -/
def firesAt (ms : List Rat) (i : Nat) : Bool := ((pollRun 0 ms).2.getD i false)

/-- The `_debounce_timers` dict: per key, the time of the last accepted
event (dict default 0).  Updates are modelled by prepending, with lookups
taking the first match. -/
structure DebounceState where
  timers : List (String × Rat)
deriving DecidableEq, Repr

/-- `self._debounce_timers.get(key, 0)`. -/
def timersGet (st : DebounceState) (key : String) : Rat :=
  ((st.timers.find? fun kv => kv.1 == key).map Prod.snd).getD 0

/-- The debounce key `f"{event.experiment_id}:{event.type.value}"`. -/
def eventKey (experimentId eventType : String) : String :=
  experimentId ++ ":" ++ eventType

/-- `_fire_event` (change_detection.py lines 111-130): an event within
`debounce` of the last accepted event for its key is dropped before any
subscriber callback runs (and does not update the timer); otherwise the
timer is set to `now` and every subscriber is invoked.  The boolean is
`true` exactly when the event is delivered to the subscribers. -/
def fireEvent (debounce : Rat) (st : DebounceState) (key : String)
    (now : Rat) : DebounceState × Bool :=
  let last := timersGet st key
  if now - last < debounce then (st, false)
  else (⟨(key, now) :: st.timers⟩, true)

/-- A sequence of `_fire_event` calls: the final state and, per event,
whether it was delivered. -/
def fireRun (debounce : Rat) (st : DebounceState) :
    List (String × Rat) → DebounceState × List Bool
  | [] => (st, [])
  | (key, now) :: es =>
      let r := fireEvent debounce st key now
      let rest := fireRun debounce r.1 es
      (rest.1, r.2 :: rest.2)

/-! ## Format registry (`backend/adapters/registry.py`)

`ProjectConfig` descriptors are modelled with a detection predicate that may
fail (`none` models the predicate raising, which `detect` / discovery catch
and treat as a skip), glob patterns, and an optional experiment-root
resolver that may likewise fail.  The filesystem is a `ScanEnv`: the glob
expansion of each pattern under the base directory, and the canonicalization
function `os.path.realpath`. -/

/-- One registered `ProjectConfig`, restricted to the fields discovery
uses. -/
structure FormatDesc where
  name : String
  detect : String → Option Bool
  patterns : List String
  resolver : Option (String → Option String)

/-- The fixed on-disk state discovery runs against. -/
structure ScanEnv where
  globMatches : String → List String
  realpath : String → String

/-- The resolution of one glob match: apply `resolve_experiment_path` when
the descriptor provides one (`none` models the resolver raising, which
skips the candidate). -/
def discResolve (cfg : FormatDesc) (matchPath : String) : Option String :=
  match cfg.resolver with
  | some r => r matchPath
  | none => some matchPath

/-- The body of the inner loop of `ProjectRegistry.discover_experiments`
(registry.py lines 76-97) for one glob match: resolve (a raising resolver
skips the candidate), skip already-seen canonical paths, then accept only
if the descriptor's `detect` re-confirms the candidate (a raising or
rejecting predicate skips it).  The state is `(seen_paths, results)`. -/
def discoverStep (env : ScanEnv) (cfg : FormatDesc)
    (st : List String × List (String × String)) (matchPath : String) :
    List String × List (String × String) :=
  match discResolve cfg matchPath with
  | none => st
  | some ep =>
      let real := env.realpath ep
      if real ∈ st.1 then st
      else match cfg.detect ep with
        | some true => (real :: st.1, st.2 ++ [(ep, cfg.name)])
        | _ => st

/-- `ProjectRegistry.discover_experiments` (registry.py lines 66-99):
iterate all registered configs, all their patterns, and all glob matches,
threading one shared `seen_paths` set; return the accepted
`(experiment_path, framework_name)` pairs. -/
def discoverExperiments (cfgs : List FormatDesc) (env : ScanEnv) :
    List (String × String) :=
  (cfgs.foldl (fun st cfg =>
    cfg.patterns.foldl (fun st2 pat =>
      (env.globMatches pat).foldl (discoverStep env cfg) st2) st)
    ([], [])).2

/-! ## Spec-side comparison definitions

These two definitions follow the specification's *words*, not the source,
and exist only to be compared against the source-derived definitions
above. -/

/-- Written from the spec's words for the best-score history value: "the
maximum score seen in that generation, then converted to a running maximum
across ascending generation order" — i.e. at generation `g`, the maximum
composite score over all records of generation at most `g` (no clamping). -/
def claimBestValue (pairs : List (Int × Rat)) (g : Int) : Rat :=
  ((((pairs.filter fun pr => pr.1 ≤ g).map Prod.snd).max?).getD 0)

/-- The closed form of a best-score-history value as the code computes it:
the maximum over 0 and all scores recorded at generations up to and
including `g`.  (The claim's expected value, `claimBestValue`, has no such
clamp at 0.) -/
def histValue (pairs : List (Int × Rat)) (g : Int) : Rat :=
  ((pairs.filter fun pr => decide (pr.1 ≤ g)).map Prod.snd).foldl max 0

/-- Written from the spec's words for the checkpoint reader's improvement
rate: the fraction of trace events whose child metric sum strictly exceeds
the parent metric sum, 0 when there are no trace events. -/
def claimTraceImprovementRate (traces : List OETrace) : Rat :=
  if traces.length = 0 then 0
  else ((traces.countP fun t =>
    decide (safeSumMetrics t.parentMetrics < safeSumMetrics t.childMetrics)) : Rat)
    / (traces.length : Rat)

/-- Written from the spec's words for the relational reader's improvement
rate: "fraction of trace/derivation events where child score exceeds parent
score".  A derivation event of the relational store is a row whose stored
parent row is present; the fraction is 0 when there are no events. -/
def claimImprovementRate (rows : List ShinkaRow) : Rat :=
  let events := rows.filterMap fun r =>
    r.parentId.bind fun pid =>
      (rows.find? fun pr => pr.id == pid).map fun parent => (r, parent)
  if events.length = 0 then 0
  else ((events.countP fun rp =>
    decide (shinkaScore rp.2 < shinkaScore rp.1)) : Rat) / (events.length : Rat)

/-! ## Concrete store states used by the counterexamples -/

/-- A minimal checkpoint program record with neutral fields. -/
def oeProgBase : OEProg :=
  { id := "a", code := "", parentId := none, generation := 0,
    timestamp := 0, metrics := [], complexity := 0, island := none }

/-- A child program record: `b` is a child of program `a`. -/
def oeProgB : OEProg :=
  { oeProgBase with id := "b", parentId := some "a", generation := 1 }

/-- Checkpoint snapshot for C4: program `b` is a child of program `a`. -/
def snapC4 : OESnapshot :=
  { emptySnapshot with programs := [oeProgBase, oeProgB] }

/-- Checkpoint snapshot with a stored NaN metric (sanitized to null by the
checkpoint reader; used to exercise the C3 sanitization statements). -/
def snapNaN : OESnapshot :=
  { emptySnapshot with
    programs := [{ oeProgBase with metrics := [("x", .num .nan)] }] }

/-- Checkpoint snapshot for C5: a single program whose only metric — and
hence whose composite score — is negative. -/
def snapC5 : OESnapshot :=
  { emptySnapshot with
    programs := [{ oeProgBase with metrics := [("x", .num (.fin (-5)))] }] }

/-- A minimal relational row with neutral fields. -/
def shinkaRowBase : ShinkaRow :=
  { id := "a", code := "", parentId := none, generation := 0,
    islandIdx := none, timestamp := 0, combinedScore := some (.fin 1),
    publicMetrics := [], privateMetrics := [], correct := true,
    complexity := none, codeDiff := none, childrenCount := 0 }

/-- Relational store for C2: two rows, only `a` is in the archive table. -/
def dbC2 : ShinkaDBContent :=
  { programs := [shinkaRowBase,
      { shinkaRowBase with id := "b", generation := 1, timestamp := 1 }],
    archive := some ["a"], metadataStore := none, fileMtime := 0 }

/-- Relational store for C3: one row whose stored private metrics carry a
NaN value. -/
def dbC3 : ShinkaDBContent :=
  { programs := [{ shinkaRowBase with privateMetrics := [("x", .num .nan)] }],
    archive := none, metadataStore := none, fileMtime := 0 }

/-- The parent row of `dbC6` (C6: a root with score 5 and a child with
score 3 — the single derivation event is a regression, yet both rows are
correct with positive scores). -/
def rowC6p : ShinkaRow :=
  { shinkaRowBase with id := "p", combinedScore := some (.fin 5) }

/-- The child row of `dbC6`. -/
def rowC6q : ShinkaRow :=
  { shinkaRowBase with
    id := "q"
    parentId := some "p"
    generation := 1
    combinedScore := some (.fin 3) }

/-- The C6 store itself. -/
def dbC6 : ShinkaDBContent :=
  { programs := [rowC6p, rowC6q],
    archive := none, metadataStore := none, fileMtime := 0 }

/-- C7's universal clause, formalized: every strictly-greater observed mtime
other than the very first observation fires a change event. -/
def claimPollFires : Prop :=
  ∀ (ms : List Rat) (i : Nat) (h : i < ms.length),
    i ≠ 0 → baselineBefore ms i < ms.get ⟨i, h⟩ → firesAt ms i = true

/-! # Theorems -/

/-! ## General helper lemmas -/

/-- The reads in this model are deterministic, so the bounded retry returns
exactly what a single attempt returns. -/
theorem dbRetry_eq (f : Unit → Except DBError α) : dbRetry f = f () := by
  cases h : f () with
  | ok a => simp [dbRetry, dbRetryAux, h]
  | error e => simp [dbRetry, dbRetryAux, h]

theorem mem_of_paginate {l : List α} {page pageSize : Nat} {p : α}
    (h : p ∈ paginate page pageSize l) : p ∈ l :=
  List.mem_of_mem_drop (List.mem_of_mem_take h)

theorem mem_pySortByKey {key : UnifiedProgram → Rat} {desc : Bool}
    {l : List UnifiedProgram} {p : UnifiedProgram} :
    p ∈ pySortByKey key desc l ↔ p ∈ l := by
  unfold pySortByKey
  split <;> exact (List.perm_insertionSort _ _).mem_iff

theorem length_pySortByKey (key : UnifiedProgram → Rat) (desc : Bool)
    (l : List UnifiedProgram) : (pySortByKey key desc l).length = l.length := by
  unfold pySortByKey
  split <;> exact (List.perm_insertionSort _ _).length_eq

/-- Every element of the converted, children-annotated program list of the
checkpoint reader has its correctness flag hardwired to `true`. -/
theorem oeAllPrograms_correct (disk : Option OESnapshot) :
    ∀ p ∈ oeAllPrograms disk, p.correct = true := by
  intro p hp
  simp only [oeAllPrograms, oeWithChildrenCounts, List.mem_map] at hp
  obtain ⟨q, hq, rfl⟩ := hp
  obtain ⟨r, _, rfl⟩ := hq
  rfl

/-- Every element of `oeAllPrograms` carries the recomputed children count
for its own id. -/
theorem oeAllPrograms_childrenCount (disk : Option OESnapshot) :
    ∀ p ∈ oeAllPrograms disk,
      p.childrenCount = oeChildrenCount
        ((oeCache disk).programs.map (oeProgToUnified (oeCache disk).archive)) p.id := by
  intro p hp
  simp only [oeAllPrograms, oeWithChildrenCounts, List.mem_map] at hp
  obtain ⟨q, hq, rfl⟩ := hp
  rfl

/-- The filter block of the checkpoint reader equals one filter by the
conjunction of the applied predicates. -/
theorem oeApplyFilters_eq (f : ProgramFilters) (l : List UnifiedProgram) :
    oeApplyFilters f l = l.filter fun p =>
      (match f.islandId with
        | some i => p.islandId == some i
        | none => true) &&
      (match f.generationMin with
        | some m => decide (m ≤ p.generation)
        | none => true) &&
      (match f.generationMax with
        | some m => decide (p.generation ≤ m)
        | none => true) &&
      (match f.scoreMin with
        | some m => decide (m ≤ p.score)
        | none => true) &&
      (!f.archiveOnly || p.inArchive) := by
  obtain ⟨fi, fgm, fgM, fs, fa, fc⟩ := f
  cases fi <;> cases fgm <;> cases fgM <;> cases fs <;> cases fa <;>
    simp [oeApplyFilters, List.filter_filter, Bool.and_assoc, Bool.and_comm,
      Bool.and_left_comm]

/-! ## C10 — the checkpoint reader ignores `correct_only` and marks every
program correct -/

/-- C10: for the checkpoint reader every returned Program has `correct =
True` (the checkpoint format does not carry correctness), so `listPrograms`
with `correct_only=True` returns exactly the same page and total count as
with `correct_only=False` — the filter never excludes a program from that
reader. -/
theorem C10_correct_only_noop :
    (∀ (disk : Option OESnapshot) (page pageSize : Nat) (sortBy : String)
        (sortDesc : Bool) (f : ProgramFilters),
      oeGetPrograms disk page pageSize sortBy sortDesc { f with correctOnly := true }
        = oeGetPrograms disk page pageSize sortBy sortDesc { f with correctOnly := false })
    ∧ (∀ (disk : Option OESnapshot) (page pageSize : Nat) (sortBy : String)
        (sortDesc : Bool) (f : ProgramFilters),
        ∀ p ∈ (oeGetPrograms disk page pageSize sortBy sortDesc f).1,
          p.correct = true)
    ∧ (∀ (disk : Option OESnapshot) (pid : String) (p : UnifiedProgram),
        oeGetProgram disk pid = some p → p.correct = true) := by
  refine ⟨fun _ _ _ _ _ _ => rfl, ?_, ?_⟩
  · intro disk page pageSize sortBy sortDesc f p hp
    have h1 : p ∈ oeApplyFilters f (oeAllPrograms disk) :=
      mem_pySortByKey.mp (mem_of_paginate hp)
    rw [oeApplyFilters_eq] at h1
    exact oeAllPrograms_correct disk p (List.mem_filter.mp h1).1
  · intro disk pid p hp
    unfold oeGetProgram at hp
    rcases hfind : (oeCache disk).programs.find? fun q => q.id == pid with _ | prog
    · simp [hfind] at hp
    · rcases htr : (oeCache disk).traces.find? fun t => t.childId == pid with _ | t <;>
        · simp [hfind, htr] at hp
          subst hp
          rfl

/-! ## C8 — debounce suppression -/

/-- C8: an event within the debounce interval of the last accepted event for
its `(experiment id, event type)` key is suppressed before any subscriber
callback runs (the state is unchanged and nothing is delivered); in the
scenario of two events for the same key 0.1s apart under the 1.0s
`FS_DEBOUNCE` window (at any wall-clock time `t ≥ FS_DEBOUNCE`), only the
first is delivered. -/
theorem C8_debounce_suppression :
    (∀ (debounce : Rat) (st : DebounceState) (key : String) (now : Rat),
      now - timersGet st key < debounce →
        fireEvent debounce st key now = (st, false))
    ∧ (∀ (eid ty : String) (t : Rat), FS_DEBOUNCE ≤ t →
        (fireRun FS_DEBOUNCE ⟨[]⟩
          [(eventKey eid ty, t), (eventKey eid ty, t + 1/10)]).2 = [true, false]) := by
  constructor
  · intro debounce st key now h
    simp [fireEvent, h]
  · intro eid ty t ht
    have hget0 : timersGet ⟨[]⟩ (eventKey eid ty) = 0 := rfl
    have e1 : fireEvent FS_DEBOUNCE ⟨[]⟩ (eventKey eid ty) t
        = (⟨[(eventKey eid ty, t)]⟩, true) := by
      unfold fireEvent
      rw [hget0, if_neg]
      simp only [FS_DEBOUNCE] at ht ⊢
      linarith
    have hget1 : timersGet ⟨[(eventKey eid ty, t)]⟩ (eventKey eid ty) = t := by
      simp [timersGet]
    have e2 : fireEvent FS_DEBOUNCE ⟨[(eventKey eid ty, t)]⟩ (eventKey eid ty)
        (t + 1/10) = (⟨[(eventKey eid ty, t)]⟩, false) := by
      unfold fireEvent
      rw [hget1, if_pos]
      simp only [FS_DEBOUNCE]
      linarith
    simp only [fireRun, e1, e2]

/-- Witness for C8 at concrete inputs. -/
theorem C8_witness :
    fireEvent 1 ⟨[("e:new_program", 1)]⟩ "e:new_program" (3/2)
      = (⟨[("e:new_program", 1)]⟩, false)
    ∧ (fireRun FS_DEBOUNCE ⟨[]⟩
        [(eventKey "e" "new_program", 100), (eventKey "e" "new_program", 100 + 1/10)]).2
      = [true, false] :=
  ⟨C8_debounce_suppression.1 1 ⟨[("e:new_program", 1)]⟩ "e:new_program" (3/2)
      (by norm_num [timersGet]),
    C8_debounce_suppression.2 "e" "new_program" 100 (by norm_num [FS_DEBOUNCE])⟩

/-! ## C7 — poll-strategy change detection -/

/-- C7 counterexample: the claim "a strictly greater observed mtime fires a
change event except on the very first observation" fails on the mtime
sequence `[0, 100]` (a store file that is missing at the first poll): the
second observation is strictly greater than the recorded baseline 0, yet no
event fires, because the guard `prev > 0` suppresses every event until a
*positive* mtime has been recorded. -/
theorem C7_counterexample : ¬ claimPollFires := by
  intro h
  exact absurd (h [0, 100] 1 (by decide) (by decide) (by decide)) (by decide)

theorem pollRun_fst (ms : List Rat) :
    ∀ prev : Rat, (pollRun prev ms).1 = ms.foldl max prev := by
  induction ms with
  | nil => intro prev; rfl
  | cons m t ih =>
    intro prev
    by_cases hpm : prev < m
    · simp [pollRun, pollStep, hpm, ih, max_eq_right (le_of_lt hpm)]
    · simp [pollRun, pollStep, hpm, ih, max_eq_left (le_of_not_lt hpm)]

theorem pollRun_fires_iff (ms : List Rat) :
    ∀ (prev : Rat) (i : Nat) (h : i < ms.length),
      ((pollRun prev ms).2.getD i false = true) ↔
        (0 < (pollRun prev (ms.take i)).1
          ∧ (pollRun prev (ms.take i)).1 < ms.get ⟨i, h⟩) := by
  induction ms with
  | nil => intro prev i h; simp at h
  | cons m t ih =>
    intro prev i h
    cases i with
    | zero =>
      by_cases hpm : prev < m
      · simp [pollRun, pollStep, hpm, and_comm]
      · simp [pollRun, pollStep, hpm]
    | succ j =>
      have hj : j < t.length := by simpa using h
      have := ih (pollStep prev m).1 j hj
      simpa [pollRun] using this

/-- C7 amended: an observation fires a change event precisely when its mtime
strictly exceeds the recorded baseline AND the baseline is positive (i.e.
some earlier poll already observed a positive mtime); the baseline before
any poll is the running maximum of the mtimes observed so far (seeded at 0);
and in particular the scenario `[100, 100, 150]` fires exactly one event,
between the second and third poll. -/
theorem C7_amended :
    (∀ (ms : List Rat) (i : Nat) (h : i < ms.length),
      firesAt ms i = true ↔
        (0 < baselineBefore ms i ∧ baselineBefore ms i < ms.get ⟨i, h⟩))
    ∧ (∀ (ms : List Rat) (i : Nat),
        baselineBefore ms i = (ms.take i).foldl max 0)
    ∧ (pollRun 0 [100, 100, 150]).2 = [false, false, true] := by
  refine ⟨?_, ?_, by decide⟩
  · intro ms i h
    exact pollRun_fires_iff ms 0 i h
  · intro ms i
    exact pollRun_fst (ms.take i) 0

/-- Witness for C7's amended statement at a concrete input. -/
theorem C7_witness :
    firesAt [100, 100, 150] 2 = true ↔
      (0 < baselineBefore [100, 100, 150] 2
        ∧ baselineBefore [100, 100, 150] 2 < 150) := by
  have := C7_amended.1 [100, 100, 150] 2 (by decide)
  simpa using this

/-! ## C1 — experimentInfo on a missing store -/

/-- C1 counterexample: the relational reader does *not* return a zero
Experiment for a missing store path — `get_experiment_info` surfaces the
`unable to open database file` error after `_db_retry`'s five attempts, so
the claim fails for the relational reader. -/
theorem C1_counterexample :
    shinkaGetExperimentInfo none 1000 = .error .unableToOpen := by
  rw [shinkaGetExperimentInfo, dbRetry_eq]
  rfl

/-- C1 amended: the checkpoint reader returns the zero/unknown-status
Experiment for a path with no store and (being total) never raises; the
relational reader raises the storage error for a missing store file — after
its five bounded retries — and returns a value for every readable store. -/
theorem C1_amended :
    (∀ now : Rat,
      oeGetExperimentInfo none now =
        { status := .unknown, lastModified := 0, totalPrograms := 0,
          bestScore := 0, currentGeneration := 0, numIslands := 0,
          lastIteration := 0 })
    ∧ (∀ now : Rat, shinkaGetExperimentInfo none now = .error .unableToOpen)
    ∧ (∀ (c : ShinkaDBContent) (now : Rat),
        ∃ e, shinkaGetExperimentInfo (some c) now = .ok e) := by
  refine ⟨fun now => rfl, fun now => ?_, fun c now => ?_⟩
  · rw [shinkaGetExperimentInfo, dbRetry_eq]
    rfl
  · rw [shinkaGetExperimentInfo, dbRetry_eq]
    exact ⟨_, rfl⟩

/-! ## C9 — discovery is idempotent, deduplicated and re-confirmed -/

theorem foldl_inv {β γ : Type _} {P : γ → Prop} :
    ∀ (l : List β) (step : γ → β → γ) (st : γ),
      P st → (∀ st2 x, P st2 → x ∈ l → P (step st2 x)) → P (l.foldl step st) := by
  intro l
  induction l with
  | nil => intro step st h _; exact h
  | cons x t ih =>
    intro step st h hstep
    exact ih step (step st x)
      (hstep st x h (List.mem_cons_self x t))
      (fun st2 y hy hmem => hstep st2 y hy (List.mem_cons_of_mem x hmem))

/-- The discovery invariant: accepted entries have pairwise-distinct
canonical paths, all recorded in `seen_paths`, and each entry was accepted
by some registered descriptor's confirming `detect`. -/
def discInv (env : ScanEnv) (cfgs : List FormatDesc)
    (st : List String × List (String × String)) : Prop :=
  (st.2.map fun e => env.realpath e.1).Nodup
  ∧ (∀ e ∈ st.2, env.realpath e.1 ∈ st.1)
  ∧ (∀ e ∈ st.2, ∃ cfg ∈ cfgs, cfg.name = e.2 ∧ cfg.detect e.1 = some true)

/-- The new state produced by accepting a candidate preserves the discovery
invariant. -/
theorem discAccept_inv (env : ScanEnv) (cfgs : List FormatDesc)
    (cfg : FormatDesc) (hcfg : cfg ∈ cfgs)
    (st : List String × List (String × String)) (ep : String)
    (hseen : env.realpath ep ∉ st.1) (hdet : cfg.detect ep = some true)
    (h : discInv env cfgs st) :
    discInv env cfgs (env.realpath ep :: st.1, st.2 ++ [(ep, cfg.name)]) := by
  obtain ⟨hnd, hin, hconf⟩ := h
  refine ⟨?_, ?_, ?_⟩
  · rw [List.map_append, List.nodup_append]
    refine ⟨hnd, List.nodup_singleton _, ?_⟩
    intro a ha hb
    simp only [List.map_cons, List.map_nil, List.mem_singleton] at hb
    obtain ⟨e, he, hee⟩ := List.mem_map.mp ha
    have hmem : env.realpath e.1 ∈ st.1 := hin e he
    rw [hee, hb] at hmem
    exact hseen hmem
  · intro e he
    rcases List.mem_append.mp he with he | he
    · exact List.mem_cons_of_mem _ (hin e he)
    · simp only [List.mem_singleton] at he
      subst he
      exact List.mem_cons_self _ _
  · intro e he
    rcases List.mem_append.mp he with he | he
    · exact hconf e he
    · simp only [List.mem_singleton] at he
      subst he
      exact ⟨cfg, hcfg, rfl, hdet⟩

theorem discoverStep_inv (env : ScanEnv) (cfgs : List FormatDesc)
    (cfg : FormatDesc) (hcfg : cfg ∈ cfgs)
    (st : List String × List (String × String)) (m : String)
    (h : discInv env cfgs st) : discInv env cfgs (discoverStep env cfg st m) := by
  have key : ∀ ep : String, discInv env cfgs
      (if env.realpath ep ∈ st.1 then st
       else match cfg.detect ep with
         | some true => (env.realpath ep :: st.1, st.2 ++ [(ep, cfg.name)])
         | _ => st) := by
    intro ep
    by_cases hseen : env.realpath ep ∈ st.1
    · simpa [hseen] using h
    · rcases hdet : cfg.detect ep with _ | b
      · simpa [hseen, hdet] using h
      · cases b
        · simpa [hseen, hdet] using h
        · simpa [hseen, hdet] using
            discAccept_inv env cfgs cfg hcfg st ep hseen hdet h
  unfold discoverStep
  rcases hres : discResolve cfg m with _ | ep
  · exact h
  · exact key ep

/-- C9: discovery over a fixed on-disk state is idempotent (the model is a
pure function of the registry and the disk, so two successive runs return
the same list), the accepted entries have pairwise-distinct canonicalized
(`os.path.realpath`) paths, and every accepted entry was re-confirmed by its
format descriptor's detection predicate after the pattern match. -/
theorem C9_discovery (cfgs : List FormatDesc) (env : ScanEnv) :
    discoverExperiments cfgs env = discoverExperiments cfgs env
    ∧ ((discoverExperiments cfgs env).map fun e => env.realpath e.1).Nodup
    ∧ (∀ e ∈ discoverExperiments cfgs env,
        ∃ cfg ∈ cfgs, cfg.name = e.2 ∧ cfg.detect e.1 = some true) := by
  have hinv : discInv env cfgs
      (cfgs.foldl (fun st cfg =>
        cfg.patterns.foldl (fun st2 pat =>
          (env.globMatches pat).foldl (discoverStep env cfg) st2) st)
        ([], [])) := by
    refine foldl_inv cfgs _ _ ?_ ?_
    · exact ⟨List.nodup_nil, fun e he => absurd he (List.not_mem_nil e),
        fun e he => absurd he (List.not_mem_nil e)⟩
    · intro st cfg hst hcfg
      refine foldl_inv cfg.patterns _ _ hst ?_
      intro st2 pat h2 _
      refine foldl_inv (env.globMatches pat) _ _ h2 ?_
      intro st3 mp h3 _
      exact discoverStep_inv env cfgs cfg hcfg st3 mp h3
  exact ⟨rfl, hinv.1, hinv.2.2⟩

/-! ## C4 — children counts -/

/-- C4 counterexample: in the snapshot `[a, b]` with `b.parent_id == "a"`,
`getProgram("a")` of the checkpoint reader returns `children_count = 0` even
though the recomputed count over the snapshot is 1 — `get_program` converts
via `_prog_to_unified`, which leaves `children_count = 0`, and never runs
the recomputation that `get_programs` performs. -/
theorem C4_counterexample :
    (oeGetProgram (some snapC4) "a").map (fun p => p.childrenCount) = some 0
    ∧ oeChildrenCount ((oeCache (some snapC4)).programs.map
        (oeProgToUnified (oeCache (some snapC4)).archive)) "a" = 1 := by
  exact ⟨rfl, by decide⟩

/-- C4 amended: only the checkpoint reader's `listPrograms` recomputes
`children_count` from the parent-pointer graph (counting programs whose
truthy `parent_id` equals the program's id); the checkpoint reader's
`getProgram` always returns `children_count = 0`, and the relational reader
returns the stored `children_count` column at every operation, never a
recomputed value. -/
theorem C4_amended :
    (∀ (disk : Option OESnapshot) (page pageSize : Nat) (sortBy : String)
        (sortDesc : Bool) (f : ProgramFilters),
      ∀ p ∈ (oeGetPrograms disk page pageSize sortBy sortDesc f).1,
        p.childrenCount = oeChildrenCount
          ((oeCache disk).programs.map (oeProgToUnified (oeCache disk).archive)) p.id)
    ∧ (∀ (disk : Option OESnapshot) (pid : String) (p : UnifiedProgram),
        oeGetProgram disk pid = some p → p.childrenCount = 0)
    ∧ (∀ (c : ShinkaDBContent) (pid : String) (p : UnifiedProgram),
        shinkaGetProgram (some c) pid = .ok (some p) →
          ∃ r ∈ c.programs, r.id = pid ∧ p.childrenCount = r.childrenCount) := by
  refine ⟨?_, ?_, ?_⟩
  · intro disk page pageSize sortBy sortDesc f p hp
    have h1 : p ∈ oeApplyFilters f (oeAllPrograms disk) :=
      mem_pySortByKey.mp (mem_of_paginate hp)
    rw [oeApplyFilters_eq] at h1
    exact oeAllPrograms_childrenCount disk p (List.mem_filter.mp h1).1
  · intro disk pid p hp
    unfold oeGetProgram at hp
    rcases hfind : (oeCache disk).programs.find? fun q => q.id == pid with _ | prog
    · simp [hfind] at hp
    · rcases htr : (oeCache disk).traces.find? fun t => t.childId == pid with _ | t <;>
        · simp [hfind, htr] at hp
          subst hp
          rfl
  · intro c pid p hp
    rw [shinkaGetProgram, dbRetry_eq] at hp
    unfold shinkaGetProgramOnce at hp
    rcases hfind : c.programs.find? fun r => r.id == pid with _ | row
    · simp [hfind] at hp
    · simp only [hfind] at hp
      have hpid : row.id = pid := by
        have := List.find?_some hfind
        simpa using this
      have hmem : row ∈ c.programs := List.mem_of_find?_eq_some hfind
      refine ⟨row, hmem, hpid, ?_⟩
      have hp2 : some { shinkaRowToUnified row with
          inArchive := decide (row.id ∈ shinkaArchiveSet c) } = some p := by
        simpa using hp
      rw [← Option.some_inj.mp hp2]
      rfl

/-- Witness for C4's amended statement at concrete inputs: the recomputed
count of `b` in `snapC4`'s page, the zero count from `getProgram`, and the
stored column pass-through of the relational reader. -/
theorem C4_witness :
    ({ oeProgToUnified [] oeProgB with childrenCount := 0 } : UnifiedProgram).childrenCount
        = oeChildrenCount ((oeCache (some snapC4)).programs.map
            (oeProgToUnified (oeCache (some snapC4)).archive))
            ({ oeProgToUnified [] oeProgB with childrenCount := 0 } : UnifiedProgram).id
    ∧ (oeProgToUnified [] oeProgBase).childrenCount = 0
    ∧ ∃ r ∈ dbC6.programs, r.id = "q"
        ∧ (shinkaRowToUnified rowC6q).childrenCount = r.childrenCount :=
  ⟨C4_amended.1 (some snapC4) 1 50 "generation" true noFilters
      { oeProgToUnified [] oeProgB with childrenCount := 0 } (by decide),
    C4_amended.2.1 (some snapC4) "a" (oeProgToUnified [] oeProgBase) (by decide),
    C4_amended.2.2 dbC6 "q" (shinkaRowToUnified rowC6q) rfl⟩

/-! ## C3 — non-finite values in scores and metrics -/

/-- C3 counterexample: the relational reader passes stored metric values
through unsanitized — a NaN stored in `private_metrics` appears as-is in the
returned Program's metrics mapping, neither a finite number nor null. -/
theorem C3_counterexample :
    (shinkaGetProgram (some dbC3) "a").map (fun po => po.map fun p => p.metrics)
      = .ok (some [("x", JVal.num .nan)])
    ∧ safeJsonFloat (JVal.num .nan) = false
    ∧ JVal.num .nan ≠ JVal.null := by
  exact ⟨rfl, rfl, by decide⟩

/-- Every sanitized metric value is a finite number or null. -/
theorem sanitizeMetrics_finite_or_null (m : List (String × JVal)) :
    ∀ kv ∈ sanitizeMetrics m,
      (∃ q, kv.2 = JVal.num (.fin q)) ∨ kv.2 = JVal.null := by
  intro kv hkv
  obtain ⟨⟨k, v⟩, _, rfl⟩ := List.mem_map.mp hkv
  rcases v with n | b | s | _
  · rcases n with q | _ | _ | _
    · exact Or.inl ⟨q, rfl⟩
    · exact Or.inr rfl
    · exact Or.inr rfl
    · exact Or.inr rfl
  · exact Or.inr rfl
  · exact Or.inr rfl
  · exact Or.inr rfl

/-- Every program of the checkpoint reader's converted list carries a
sanitized metrics map. -/
theorem oeAllPrograms_metrics_sanitized (disk : Option OESnapshot) :
    ∀ p ∈ oeAllPrograms disk, ∃ m0, p.metrics = sanitizeMetrics m0 := by
  intro p hp
  simp only [oeAllPrograms, oeWithChildrenCounts, List.mem_map] at hp
  obtain ⟨q, hq, rfl⟩ := hp
  obtain ⟨r, _, rfl⟩ := hq
  exact ⟨r.metrics, rfl⟩

/-- C3 amended: the checkpoint reader sanitizes metrics (every returned
metric value is a finite number or null) and `_clean_nan` never lets a
non-finite value through, so both readers' composite scores are finite; but
the relational reader's metrics mapping is the *unsanitized* merge of the
stored public and private metric dicts, so stored non-finite values leave
the core (refuting the claim there). -/
theorem C3_amended :
    (∀ m : List (String × JVal), ∀ kv ∈ sanitizeMetrics m,
      (∃ q, kv.2 = JVal.num (.fin q)) ∨ kv.2 = JVal.null)
    ∧ (∀ v : Option JNum, cleanNan v = none ∨ ∃ q, cleanNan v = some (.fin q))
    ∧ (∀ (disk : Option OESnapshot) (page pageSize : Nat) (sortBy : String)
        (sortDesc : Bool) (f : ProgramFilters),
        ∀ p ∈ (oeGetPrograms disk page pageSize sortBy sortDesc f).1,
          ∀ kv ∈ p.metrics,
            (∃ q, kv.2 = JVal.num (.fin q)) ∨ kv.2 = JVal.null)
    ∧ (∀ (disk : Option OESnapshot) (pid : String) (p : UnifiedProgram),
        oeGetProgram disk pid = some p →
          ∀ kv ∈ p.metrics,
            (∃ q, kv.2 = JVal.num (.fin q)) ∨ kv.2 = JVal.null)
    ∧ (∀ row : ShinkaRow, (shinkaRowToUnified row).metrics
        = dictMerge row.publicMetrics row.privateMetrics) := by
  refine ⟨sanitizeMetrics_finite_or_null, ?_, ?_, ?_, fun row => rfl⟩
  · intro v
    rcases v with _ | n
    · exact Or.inl rfl
    · rcases n with q | _ | _ | _
      · exact Or.inr ⟨q, rfl⟩
      · exact Or.inl rfl
      · exact Or.inl rfl
      · exact Or.inl rfl
  · intro disk page pageSize sortBy sortDesc f p hp
    have h1 : p ∈ oeApplyFilters f (oeAllPrograms disk) :=
      mem_pySortByKey.mp (mem_of_paginate hp)
    rw [oeApplyFilters_eq] at h1
    obtain ⟨m0, hm0⟩ :=
      oeAllPrograms_metrics_sanitized disk p (List.mem_filter.mp h1).1
    rw [hm0]
    exact sanitizeMetrics_finite_or_null m0
  · intro disk pid p hp
    unfold oeGetProgram at hp
    rcases hfind : (oeCache disk).programs.find? fun q => q.id == pid with _ | prog
    · simp [hfind] at hp
    · rcases htr : (oeCache disk).traces.find? fun t => t.childId == pid with _ | t <;>
        · simp [hfind, htr] at hp
          subst hp
          exact sanitizeMetrics_finite_or_null prog.metrics

/-- Witness for C3's amended statement at concrete inputs: a NaN metric is
sanitized to null by the checkpoint reader (`snapNaN`), `_clean_nan` maps
infinity to `None`, and the relational reader passes `dbC3`'s merged metric
dicts through. -/
theorem C3_witness :
    ((∃ q, (JVal.null : JVal) = JVal.num (.fin q)) ∨ (JVal.null : JVal) = JVal.null)
    ∧ (cleanNan (some .inf) = none ∨ ∃ q, cleanNan (some .inf) = some (.fin q))
    ∧ ((∃ q, (JVal.null : JVal) = JVal.num (.fin q)) ∨ (JVal.null : JVal) = JVal.null)
    ∧ (shinkaRowToUnified { shinkaRowBase with privateMetrics := [("x", .num .nan)] }).metrics
        = dictMerge [] [("x", .num .nan)] :=
  ⟨(sanitizeMetrics_finite_or_null [("x", .num .nan)] ("x", JVal.null) (by decide)).imp
      (fun h => h) (fun h => h),
    C3_amended.2.1 (some .inf),
    C3_amended.2.2.2.1 (some snapNaN) "a"
      (oeProgToUnified [] { oeProgBase with metrics := [("x", .num .nan)] })
      (by decide) ("x", JVal.null) (by decide),
    C3_amended.2.2.2.2 { shinkaRowBase with privateMetrics := [("x", .num .nan)] }⟩

/-! ## C2 — filters, pagination and total count -/

/-- C2 counterexample: in the relational reader the archive-only filter is
*not* applied before pagination and is not reflected in the total count —
for `dbC2` (two rows, one archived) with `archive_only=True` the reader
reports a total of 2 while only one stored program satisfies all the
filters. -/
theorem C2_counterexample :
    (shinkaGetPrograms (some dbC2) 1 50 "generation" true
        { noFilters with archiveOnly := true }).map Prod.snd = .ok 2
    ∧ dbC2.programs.countP (fun r =>
        shinkaWhere { noFilters with archiveOnly := true } r
          && decide (r.id ∈ shinkaArchiveSet dbC2)) = 1 :=
  ⟨rfl, rfl⟩

/-- C2 amended: for the checkpoint reader every filter (the `correct_only`
filter being vacuous there) is applied before pagination, every page member
satisfies all filters and the total is the post-filter count.  For the
relational reader the island/generation/score/correct filters are applied in
the WHERE clause before pagination and the total counts exactly the rows
satisfying them; every returned page member is the image of such a row (and
is archived when `archive_only` is set), but the archive-only filter is
applied only to the already-fetched page and is *not* reflected in the
total. -/
theorem C2_amended :
    (∀ (disk : Option OESnapshot) (page pageSize : Nat) (sortBy : String)
        (sortDesc : Bool) (f : ProgramFilters),
      (∀ p ∈ (oeGetPrograms disk page pageSize sortBy sortDesc f).1,
        oeSatisfies f p = true)
      ∧ (oeGetPrograms disk page pageSize sortBy sortDesc f).2
          = (oeAllPrograms disk).countP (oeSatisfies f))
    ∧ (∀ (c : ShinkaDBContent) (page pageSize : Nat) (sortBy : String)
        (sortDesc : Bool) (f : ProgramFilters),
      ∃ l n, shinkaGetPrograms (some c) page pageSize sortBy sortDesc f = .ok (l, n)
        ∧ (∀ p ∈ l, ∃ r ∈ c.programs, shinkaWhere f r = true
            ∧ p = { shinkaRowToUnified r with
                inArchive := decide (r.id ∈ shinkaArchiveSet c) }
            ∧ (f.archiveOnly = true → p.inArchive = true))
        ∧ n = c.programs.countP (shinkaWhere f)) := by
  constructor
  · intro disk page pageSize sortBy sortDesc f
    constructor
    · intro p hp
      have h1 : p ∈ oeApplyFilters f (oeAllPrograms disk) :=
        mem_pySortByKey.mp (mem_of_paginate hp)
      rw [oeApplyFilters_eq] at h1
      obtain ⟨hmem, hsat⟩ := List.mem_filter.mp h1
      have hcor : p.correct = true := oeAllPrograms_correct disk p hmem
      simp only [Bool.and_eq_true] at hsat
      simp only [oeSatisfies, Bool.and_eq_true]
      exact ⟨hsat, by simp [hcor]⟩
    · show (pySortByKey (oeSortKey sortBy) sortDesc
          (oeApplyFilters f (oeAllPrograms disk))).length = _
      rw [length_pySortByKey, oeApplyFilters_eq, ← List.countP_eq_length_filter]
      refine List.countP_congr ?_
      intro p hp
      have hcor : p.correct = true := oeAllPrograms_correct disk p hp
      simp only [oeSatisfies, Bool.and_eq_true]
      constructor
      · intro h
        simp only [Bool.and_eq_true] at h
        exact ⟨h, by simp [hcor]⟩
      · intro h
        exact h.1
  · intro c page pageSize sortBy sortDesc f
    refine ⟨(paginate page pageSize
        (shinkaSortedRows c sortBy sortDesc f)).filterMap (shinkaPageEntry c f),
      (c.programs.filter (shinkaWhere f)).length, ?_, ?_,
      (List.countP_eq_length_filter _ _).symm⟩
    · rw [shinkaGetPrograms, dbRetry_eq]
      rfl
    · intro p hp
      obtain ⟨r, hr, hfn⟩ := List.mem_filterMap.mp hp
      have hr2 : r ∈ c.programs.filter (shinkaWhere f) := by
        have hsorted := mem_of_paginate hr
        unfold shinkaSortedRows at hsorted
        rcases sortDesc with _ | _ <;>
          simpa using (List.perm_insertionSort _ _).mem_iff.mp hsorted
      obtain ⟨hmem, hwhere⟩ := List.mem_filter.mp hr2
      refine ⟨r, hmem, hwhere, ?_⟩
      by_cases ha : f.archiveOnly = true
      · by_cases hin : r.id ∈ shinkaArchiveSet c
        · simp [shinkaPageEntry, ha, hin] at hfn
          subst hfn
          exact ⟨by simp [hin], fun _ => by simp [hin]⟩
        · simp [shinkaPageEntry, ha, hin] at hfn
      · have hfa : f.archiveOnly = false := by
          revert ha
          cases f.archiveOnly <;> simp
        simp [shinkaPageEntry, hfa] at hfn
        subst hfn
        exact ⟨rfl, fun hcon => absurd hcon ha⟩

/-- Witness for C2's amended statement at concrete inputs: the checkpoint
reader over `snapC4` and the relational reader over `dbC2` with the
archive-only filter off. -/
theorem C2_witness :
    ((∀ p ∈ (oeGetPrograms (some snapC4) 1 50 "generation" true noFilters).1,
        oeSatisfies noFilters p = true)
      ∧ (oeGetPrograms (some snapC4) 1 50 "generation" true noFilters).2
          = (oeAllPrograms (some snapC4)).countP (oeSatisfies noFilters))
    ∧ (∃ l n, shinkaGetPrograms (some dbC2) 1 50 "score" true noFilters = .ok (l, n)
        ∧ (∀ p ∈ l, ∃ r ∈ dbC2.programs, shinkaWhere noFilters r = true
            ∧ p = { shinkaRowToUnified r with
                inArchive := decide (r.id ∈ shinkaArchiveSet dbC2) }
            ∧ (noFilters.archiveOnly = true → p.inArchive = true))
        ∧ n = dbC2.programs.countP (shinkaWhere noFilters)) :=
  ⟨C2_amended.1 (some snapC4) 1 50 "generation" true noFilters,
    C2_amended.2 dbC2 1 50 "score" true noFilters⟩

/-! ## C6 — improvement rate -/

/-- C6 counterexample: for `dbC6` the single derivation event is a
regression (child 3 < parent 5), so the claimed definition gives 0 — but the
relational reader computes `improvement_rate` as the fraction of rows with
positive score and set correctness flag, which here is 1. -/
theorem C6_counterexample :
    (shinkaGetMetrics (some dbC6)).map (fun m => m.improvementRate) = .ok 1
    ∧ claimImprovementRate dbC6.programs = 0 := by
  constructor
  · rw [shinkaGetMetrics, dbRetry_eq]
    simp [shinkaGetMetricsOnce, dbC6, rowC6p, rowC6q, shinkaRowBase,
      shinkaScore, orZero, cleanNan, List.countP, List.countP.go, Except.map]
  · simp [claimImprovementRate, dbC6, rowC6p, rowC6q, shinkaRowBase,
      shinkaScore, orZero, cleanNan]
    norm_num

/-- C6 amended: the checkpoint reader's improvement rate is exactly the
claimed fraction over trace events (whenever the checkpoint holds any
program); the relational reader instead computes the fraction of *stored
rows* whose cleaned combined score is positive and whose correctness flag is
set — it never consults parent/child score pairs. -/
theorem C6_amended :
    (∀ disk : Option OESnapshot, (oeCache disk).programs ≠ [] →
      (oeGetMetrics disk).improvementRate
        = claimTraceImprovementRate (oeCache disk).traces)
    ∧ (∀ c : ShinkaDBContent, c.programs ≠ [] →
      ∃ m, shinkaGetMetrics (some c) = .ok m
        ∧ m.improvementRate = ((c.programs.countP fun r =>
            decide (0 < shinkaScore r) && r.correct : Nat) : Rat)
            / (c.programs.length : Rat)) := by
  constructor
  · intro disk hne
    simp only [oeGetMetrics]
    rw [if_neg (by simpa [List.isEmpty_iff] using hne)]
    rfl
  · intro c hne
    rw [shinkaGetMetrics, dbRetry_eq]
    simp only [shinkaGetMetricsOnce]
    rw [if_neg (by simpa [List.isEmpty_iff] using hne)]
    exact ⟨_, rfl, rfl⟩

/-- Witness for C6's amended statement at concrete inputs. -/
theorem C6_witness :
    (oeGetMetrics (some snapC4)).improvementRate
        = claimTraceImprovementRate (oeCache (some snapC4)).traces
    ∧ ∃ m, shinkaGetMetrics (some dbC6) = .ok m
        ∧ m.improvementRate = ((dbC6.programs.countP fun r =>
            decide (0 < shinkaScore r) && r.correct : Nat) : Rat)
            / (dbC6.programs.length : Rat) :=
  ⟨C6_amended.1 (some snapC4) (by decide), C6_amended.2 dbC6 (by decide)⟩

/-! ## C5 — best-score history -/

theorem foldl_max_assoc (l : List Rat) :
    ∀ a b : Rat, l.foldl max (max a b) = max a (l.foldl max b) := by
  induction l with
  | nil => intro a b; rfl
  | cons x t ih =>
    intro a b
    show t.foldl max (max (max a b) x) = max a (t.foldl max (max b x))
    rw [max_assoc, ih]

theorem bigmax_cons (v : Rat) (s : List Rat) :
    (v :: s).foldl max 0 = max (max 0 v) (s.foldl max 0) := by
  show s.foldl max (max 0 v) = _
  rw [← max_eq_left (le_max_left (0 : Rat) v), foldl_max_assoc,
    max_eq_left (le_max_left (0 : Rat) v)]

theorem foldlmax_filter_or (p q : α → Bool) (f : α → Rat) (l : List α) :
    ((l.filter fun x => p x || q x).map f).foldl max 0
      = max (((l.filter p).map f).foldl max 0)
          (((l.filter q).map f).foldl max 0) := by
  induction l with
  | nil => simp
  | cons x t ih =>
    rcases hp : p x <;> rcases hq : q x <;>
      simp only [List.filter_cons, hp, hq, Bool.false_or, Bool.true_or,
        Bool.or_false, Bool.or_true, if_pos, if_neg, Bool.false_eq_true,
        ite_true, ite_false, List.map_cons, bigmax_cons, ih] <;>
      first
        | rfl
        | simp [max_assoc, max_comm, max_left_comm, max_self]

/-- If every generation is at most `g`, equals `h`, or lies strictly beyond
`h`, then extending the window from `g` to `h > g` adds exactly the
generation-`h` scores. -/
theorem histValue_step (pairs : List (Int × Rat)) (g h : Int) (hgh : g < h)
    (hcomplete : ∀ pr ∈ pairs, pr.1 ≤ g ∨ pr.1 = h ∨ h < pr.1) :
    histValue pairs h = max (histValue pairs g) (genBest pairs h) := by
  have hcongr : pairs.filter (fun pr => decide (pr.1 ≤ h))
      = pairs.filter fun pr => decide (pr.1 ≤ g) || pr.1 == h := by
    refine List.filter_congr ?_
    intro pr hpr
    rcases hcomplete pr hpr with h1 | h1 | h1
    · have h2 : pr.1 ≤ h := le_trans h1 (le_of_lt hgh)
      simp [h1, h2]
    · simp [h1]
    · have h2 : ¬ pr.1 ≤ h := not_le.mpr h1
      have h3 : ¬ pr.1 ≤ g := not_le.mpr (lt_trans hgh h1)
      have h4 : pr.1 ≠ h := ne_of_gt h1
      simp [h2, h3, h4]
  show ((pairs.filter fun pr => decide (pr.1 ≤ h)).map Prod.snd).foldl max 0 = _
  rw [hcongr, foldlmax_filter_or]
  rfl

theorem runningMax_fst (l : List (Int × Rat)) :
    ∀ acc : Rat, (runningMax acc l).map Prod.fst = l.map Prod.fst := by
  induction l with
  | nil => intro acc; rfl
  | cons e t ih =>
    intro acc
    obtain ⟨g, v⟩ := e
    simp [runningMax, ih]

theorem runningMax_mem_ge (l : List (Int × Rat)) :
    ∀ (acc : Rat), ∀ e ∈ runningMax acc l, acc ≤ e.2 := by
  induction l with
  | nil => intro acc e he; simp [runningMax] at he
  | cons x t ih =>
    intro acc e he
    obtain ⟨g, v⟩ := x
    simp only [runningMax, List.mem_cons] at he
    rcases he with rfl | he
    · exact le_max_left acc v
    · exact le_trans (le_max_left acc v) (ih (max acc v) e he)

theorem runningMax_mono (l : List (Int × Rat)) :
    ∀ acc : Rat, List.Pairwise (· ≤ ·) ((runningMax acc l).map Prod.snd) := by
  induction l with
  | nil => intro acc; simp [runningMax]
  | cons x t ih =>
    intro acc
    obtain ⟨g, v⟩ := x
    simp only [runningMax, List.map_cons, List.pairwise_cons]
    refine ⟨?_, ih (max acc v)⟩
    intro y hy
    obtain ⟨e, he, rfl⟩ := List.mem_map.mp hy
    exact runningMax_mem_ge t (max acc v) e he

/-- The central invariant: running the in-place maximum rewrite over the
per-generation maxima of an ascending, complete generation list yields, at
each generation, the windowed maximum `histValue`. -/
theorem runningMax_histValue (pairs : List (Int × Rat)) :
    ∀ (gs : List Int) (g : Int),
      List.Chain (· < ·) g gs →
      (∀ pr ∈ pairs, pr.1 ≤ g ∨ pr.1 ∈ gs) →
      ∀ e ∈ runningMax (histValue pairs g)
          (gs.map fun x => (x, genBest pairs x)),
        e.2 = histValue pairs e.1 := by
  intro gs
  induction gs with
  | nil => intro g _ _ e he; simp [runningMax] at he
  | cons h t ih =>
    intro g hchain hcomp e he
    rw [List.chain_cons] at hchain
    obtain ⟨hgh, hchain2⟩ := hchain
    have hpair : List.Pairwise (· < ·) (h :: t) :=
      (List.chain_iff_pairwise.mp hchain2)
    have htgt : ∀ x ∈ t, h < x := fun x hx =>
      (List.pairwise_cons.mp hpair).1 x hx
    have htri : ∀ pr ∈ pairs, pr.1 ≤ g ∨ pr.1 = h ∨ h < pr.1 := by
      intro pr hpr
      rcases hcomp pr hpr with h1 | h1
      · exact Or.inl h1
      · rcases List.mem_cons.mp h1 with h1 | h1
        · exact Or.inr (Or.inl h1)
        · exact Or.inr (Or.inr (htgt _ h1))
    have hstep : max (histValue pairs g) (genBest pairs h) = histValue pairs h :=
      (histValue_step pairs g h hgh htri).symm
    simp only [List.map_cons, runningMax, List.mem_cons] at he
    rcases he with rfl | he
    · simp [hstep]
    · rw [hstep] at he
      refine ih h hchain2 ?_ e he
      intro pr hpr
      rcases hcomp pr hpr with h1 | h1
      · exact Or.inl (le_trans h1 (le_of_lt hgh))
      · rcases List.mem_cons.mp h1 with h1 | h1
        · exact Or.inl (le_of_eq h1)
        · exact Or.inr h1

theorem sortedGens_sorted (pairs : List (Int × Rat)) :
    List.Sorted (· ≤ ·) (sortedGens pairs) :=
  List.sorted_insertionSort _ _

theorem sortedGens_nodup (pairs : List (Int × Rat)) :
    (sortedGens pairs).Nodup :=
  (List.perm_insertionSort _ _).nodup_iff.mpr (List.nodup_dedup _)

theorem mem_sortedGens (pairs : List (Int × Rat)) (g : Int) :
    g ∈ sortedGens pairs ↔ g ∈ pairs.map Prod.fst :=
  (List.perm_insertionSort _ _).mem_iff.trans (List.mem_dedup)

theorem sortedGens_pairwise_lt (pairs : List (Int × Rat)) :
    List.Pairwise (· < ·) (sortedGens pairs) :=
  List.Sorted.lt_of_le (sortedGens_sorted pairs) (sortedGens_nodup pairs)

/-- The full characterization of `bestHistory`: its generations are the
distinct generations present, strictly ascending; each value is the
0-clamped maximum score over all generations up to that point; and the
values are monotonically non-decreasing. -/
theorem bestHistory_spec (pairs : List (Int × Rat)) :
    (bestHistory pairs).map Prod.fst = sortedGens pairs
    ∧ List.Pairwise (· < ·) ((bestHistory pairs).map Prod.fst)
    ∧ (∀ g : Int, g ∈ (bestHistory pairs).map Prod.fst ↔ g ∈ pairs.map Prod.fst)
    ∧ (∀ e ∈ bestHistory pairs, e.2 = histValue pairs e.1)
    ∧ List.Pairwise (· ≤ ·) ((bestHistory pairs).map Prod.snd) := by
  have hmapfst : ∀ gs : List Int,
      (gs.map fun x => (x, genBest pairs x)).map Prod.fst = gs := by
    intro gs
    induction gs with
    | nil => rfl
    | cons a t ih => simp [ih]
  have hfst : (bestHistory pairs).map Prod.fst = sortedGens pairs := by
    rw [bestHistory, runningMax_fst, hmapfst]
  refine ⟨hfst, ?_, ?_, ?_, runningMax_mono _ 0⟩
  · rw [hfst]; exact sortedGens_pairwise_lt pairs
  · intro g; rw [hfst]; exact mem_sortedGens pairs g
  · rcases hgs : sortedGens pairs with _ | ⟨g0, t0⟩
    · intro e he
      simp [bestHistory, hgs, runningMax] at he
    · have hmin : ∀ x ∈ g0 :: t0, g0 ≤ x := by
        intro x hx
        rcases List.mem_cons.mp hx with rfl | hx
        · exact le_refl x
        · exact le_of_lt ((List.pairwise_cons.mp
            (hgs ▸ sortedGens_pairwise_lt pairs)).1 x hx)
      have hbase : histValue pairs (g0 - 1) = 0 := by
        have hnil : pairs.filter (fun pr => decide (pr.1 ≤ g0 - 1)) = [] := by
          rw [List.filter_eq_nil_iff]
          intro pr hpr
          have hpresent : pr.1 ∈ sortedGens pairs :=
            (mem_sortedGens pairs pr.1).mpr (List.mem_map_of_mem Prod.fst hpr)
          rw [hgs] at hpresent
          have := hmin pr.1 hpresent
          simp only [decide_eq_true_eq]
          omega
        rw [histValue, hnil]
        rfl
      have hchain : List.Chain (· < ·) (g0 - 1) (g0 :: t0) := by
        rw [List.chain_iff_pairwise, List.pairwise_cons]
        refine ⟨?_, hgs ▸ sortedGens_pairwise_lt pairs⟩
        intro x hx
        have := hmin x hx
        omega
      have hcomp : ∀ pr ∈ pairs, pr.1 ≤ g0 - 1 ∨ pr.1 ∈ g0 :: t0 := by
        intro pr hpr
        refine Or.inr ?_
        rw [← hgs]
        exact (mem_sortedGens pairs pr.1).mpr (List.mem_map_of_mem Prod.fst hpr)
      intro e he
      refine runningMax_histValue pairs (g0 :: t0) (g0 - 1) hchain hcomp e ?_
      rw [hbase]
      rw [bestHistory, hgs] at he
      exact he

/-- The checkpoint reader's best-score history is the shared construction
over its `(generation, metric-sum)` pairs, for any cache state. -/
theorem oeGetMetrics_history (disk : Option OESnapshot) :
    (oeGetMetrics disk).bestScoreHistory
      = bestHistory ((oeCache disk).programs.map fun p =>
          (p.generation, safeSumMetrics p.metrics)) := by
  by_cases he : (oeCache disk).programs.isEmpty
  · have hnil : (oeCache disk).programs = [] := List.isEmpty_iff.mp he
    simp [oeGetMetrics, he, hnil, defaultMetricsSummary, bestHistory,
      sortedGens, runningMax]
  · simp [oeGetMetrics, he]

/-- The relational reader's best-score history is the shared construction
over its `(generation, cleaned-score)` pairs, for any readable store. -/
theorem shinkaGetMetrics_history (c : ShinkaDBContent) :
    ∃ m, shinkaGetMetrics (some c) = .ok m
      ∧ m.bestScoreHistory
          = bestHistory (c.programs.map fun r => (r.generation, shinkaScore r)) := by
  rw [shinkaGetMetrics, dbRetry_eq]
  simp only [shinkaGetMetricsOnce]
  by_cases he : c.programs.isEmpty
  · have hnil : c.programs = [] := List.isEmpty_iff.mp he
    rw [if_pos he]
    exact ⟨_, rfl, by
      simp [hnil, defaultMetricsSummary, bestHistory, sortedGens, runningMax]⟩
  · rw [if_neg he]
    exact ⟨_, rfl, rfl⟩

theorem map_fst_pairs {β : Type _} (l : List β) (fg : β → Int) (fv : β → Rat) :
    ((l.map fun b => (fg b, fv b)).map Prod.fst) = l.map fg := by
  induction l with
  | nil => rfl
  | cons a t ih => simp [ih]

/-- C5 counterexample: for a snapshot holding a single program whose
composite score is −5, the returned best-score history is `[(0, 0)]` — the
`gen_best.get(g, 0)` default and the `running_max = 0.0` seed clamp the
curve at 0 — while the claim's running maximum of per-generation maxima is
−5. -/
theorem C5_counterexample :
    (oeGetMetrics (some snapC5)).bestScoreHistory = [((0 : Int), (0 : Rat))]
    ∧ claimBestValue ((oeCache (some snapC5)).programs.map fun p =>
        (p.generation, safeSumMetrics p.metrics)) 0 = -5
    ∧ ((0 : Rat) ≠ -5) := by
  have hsum : safeSumMetrics [("x", JVal.num (.fin (-5)))] = -5 := by
    simp [safeSumMetrics, finVal]
  have hmax : max (0 : Rat) (-5 : Rat) = 0 := max_eq_left (by norm_num)
  refine ⟨?_, ?_, by norm_num⟩
  · simp [oeGetMetrics, oeCache, snapC5, emptySnapshot, oeProgBase, hsum,
      bestHistory, sortedGens, genBest, runningMax,
      List.insertionSort, List.orderedInsert, hmax]
  · simp [claimBestValue, oeCache, snapC5, emptySnapshot, oeProgBase, hsum,
      List.max?]

/-- C5 amended: for both readers the best-score history has one point per
generation present, in strictly ascending generation order, with the value
at generation `g` equal to `max(0, per-generation maxima running maximum)` —
i.e. the running maximum clamped below at 0 by the `gen_best.get(g, 0)`
default and the 0-seeded running maximum (`histValue`) — and the value
sequence is monotonically non-decreasing.  For collections with any
non-negative score the clamp is invisible and the history matches the
original claim; for all-negative collections it pins the curve at 0. -/
theorem C5_amended :
    (∀ disk : Option OESnapshot,
      List.Pairwise (· < ·) (((oeGetMetrics disk).bestScoreHistory).map Prod.fst)
      ∧ (∀ g : Int, g ∈ ((oeGetMetrics disk).bestScoreHistory).map Prod.fst
          ↔ g ∈ (oeCache disk).programs.map fun p => p.generation)
      ∧ (∀ e ∈ (oeGetMetrics disk).bestScoreHistory,
          e.2 = histValue ((oeCache disk).programs.map fun p =>
            (p.generation, safeSumMetrics p.metrics)) e.1)
      ∧ List.Pairwise (· ≤ ·)
          (((oeGetMetrics disk).bestScoreHistory).map Prod.snd))
    ∧ (∀ c : ShinkaDBContent,
      ∃ m, shinkaGetMetrics (some c) = .ok m
        ∧ List.Pairwise (· < ·) (m.bestScoreHistory.map Prod.fst)
        ∧ (∀ g : Int, g ∈ m.bestScoreHistory.map Prod.fst
            ↔ g ∈ c.programs.map fun r => r.generation)
        ∧ (∀ e ∈ m.bestScoreHistory,
            e.2 = histValue (c.programs.map fun r =>
              (r.generation, shinkaScore r)) e.1)
        ∧ List.Pairwise (· ≤ ·) (m.bestScoreHistory.map Prod.snd)) := by
  constructor
  · intro disk
    obtain ⟨-, hlt, hmem, hval, hmono⟩ :=
      bestHistory_spec ((oeCache disk).programs.map fun p =>
        (p.generation, safeSumMetrics p.metrics))
    rw [oeGetMetrics_history disk]
    refine ⟨hlt, ?_, hval, hmono⟩
    intro g
    rw [hmem g, map_fst_pairs]
  · intro c
    obtain ⟨m, hm, hist⟩ := shinkaGetMetrics_history c
    obtain ⟨-, hlt, hmem, hval, hmono⟩ :=
      bestHistory_spec (c.programs.map fun r => (r.generation, shinkaScore r))
    refine ⟨m, hm, ?_, ?_, ?_, ?_⟩ <;> rw [hist]
    · exact hlt
    · intro g
      rw [hmem g, map_fst_pairs]
    · exact hval
    · exact hmono

/-- Witness for C5's amended statement at concrete inputs: the second
history point of `snapC4` (two programs, generations 0 and 1, scores 0) and
the relational reader over `dbC6`. -/
theorem C5_witness :
    (((1 : Int), (0 : Rat)).2
      = histValue ((oeCache (some snapC4)).programs.map fun p =>
          (p.generation, safeSumMetrics p.metrics)) ((1 : Int), (0 : Rat)).1)
    ∧ (∃ m, shinkaGetMetrics (some dbC6) = .ok m
        ∧ List.Pairwise (· < ·) (m.bestScoreHistory.map Prod.fst)
        ∧ (∀ g : Int, g ∈ m.bestScoreHistory.map Prod.fst
            ↔ g ∈ dbC6.programs.map fun r => r.generation)
        ∧ (∀ e ∈ m.bestScoreHistory,
            e.2 = histValue (dbC6.programs.map fun r =>
              (r.generation, shinkaScore r)) e.1)
        ∧ List.Pairwise (· ≤ ·) (m.bestScoreHistory.map Prod.snd)) :=
  ⟨(C5_amended.1 (some snapC4)).2.2.1 ((1 : Int), (0 : Rat)) (by decide),
    C5_amended.2 dbC6⟩

end EvoDash
